import Mathlib

/-!
Shallow embedding of the knowson streaming JSON/simplified-dialect reader
(src/json_parser.cc, src/json.cc, src/unnamed/part_000 = json_parser.h,
src/unnamed/part_001 = json.h).

Modelling conventions:
* Bytes are Lean `Char`s; the input stream is a `List Char`.
* `Selection` values (lexemes, possibly spanning several ParseBlocks) are
  modelled as the materialized `List Char` that `Selection::data()` would
  produce: `data()` walks the block chain from the start position to the end
  position appending the bytes in order, so the materialized text of a
  selection is exactly the contiguous slice of the byte stream between the
  two positions.  The chunked-block layer itself is modelled separately
  (`sourceRead`, `fillBlock`, `readBlocks`) for the chunk-independence claim.
* `IJsonParserLog` reports are collected in a `List Diag` in source order;
  `ParseContext::error` formats a message and forwards it to the sink when
  one is present (absence only suppresses the message, never changes
  control flow), so the list models the reports a present sink receives.
  Line/column counters only feed those messages and are not modelled.
* `JsonNumber` stores the raw lexeme text instead of the `double` that
  `parse_value` obtains through `std::num_get`: IEEE-754 conversion is the
  one step left outside the shallow embedding.
* Each C++ loop or mutually recursive routine is driven by an explicit fuel
  counter (`parsers`, `nextTokenFuel`, `fillBlock`, `readBlocks`); the fuel
  supplied by the entry points strictly exceeds the number of steps any
  input of given length can take, so the fuelled functions agree with the
  unbounded originals.
* `ParseContext::next` leaves `currentToken` untouched on the two
  end-of-stream error paths after a lone `-` or `/` (the token keeps the
  previous token's type), which the model reproduces by passing the previous
  token into the tokenizer.  The `currentToken` before the very first
  `next()` is value-uninitialized in the C++; the model picks `kEOF`/empty.
-/

namespace Knowson

/-- Dialect selector, mirroring `enum class JsonDocumentType` in
json_parser.h (`kUnknown` = auto-detect, `kNormal` = strict JSON,
`kSimplified` = relaxed configuration dialect). -/
inductive JsonDocumentType where
  | kUnknown
  | kNormal
  | kSimplified
deriving DecidableEq

/-- Token kinds, mirroring `enum class TokenType` in json_parser.cc. -/
inductive TokenType where
  | kIdentifier
  | kString
  | kNumber
  | kCurlyLeft
  | kCurlyRight
  | kSeperator
  | kBraceLeft
  | kBraceRight
  | kComma
  | kComment
  | kEOF
  | kTrue
  | kFalse
  | kNull
deriving DecidableEq

/-- A token: kind plus the materialized text of its `Selection`.  For
punctuation, comment and EOF tokens the C++ never reads the selection; the
model stores `[]` there. -/
structure Token where
  type : TokenType
  lexeme : List Char
deriving DecidableEq

/-- A diagnostic delivered to `IJsonParserLog::Error`.  `unexpectedEof`
models the "Unexpected EOF" message of `ParseContext::unexpected_eof`;
`unexpectedToken t` models the "Unexpected ⟨t⟩, expected ..." message of
`unexpected_token` (the formatted token kind is the observable payload). -/
inductive Diag where
  | unexpectedEof
  | unexpectedToken (got : TokenType)
deriving DecidableEq

/-- The value tree of json.h.  `obj` members are kept in `std::map` order:
ascending key order with unique keys (see `mapInsert`). `num` keeps the raw
number lexeme (see the header comment). -/
inductive JsonValue where
  | obj (members : List (List Char × JsonValue))
  | arr (elements : List JsonValue)
  | boolean (b : Bool)
  | num (lexeme : List Char)
  | str (s : List Char)
  | null

/-- Lexicographic comparison on key text, as `std::less<std::string>`
orders the keys of `JsonObject::MemberMap`. -/
def charListLt : List Char → List Char → Bool
  | [], [] => false
  | [], _ :: _ => true
  | _ :: _, [] => false
  | a :: as, b :: bs => if a < b then true else if b < a then false else charListLt as bs

/-- `JsonObject::insert` (json.cc): `members_.insert(make_pair(key, value))`.
`std::map::insert` places the pair at its ordered position and is a no-op
when the key is already present (the new value is discarded). -/
def mapInsert : List (List Char × JsonValue) → List Char → JsonValue →
    List (List Char × JsonValue)
  | [], k, v => [(k, v)]
  | (k', v') :: t, k, v =>
    if charListLt k k' then (k, v) :: (k', v') :: t
    else if charListLt k' k then (k', v') :: mapInsert t k v
    else (k', v') :: t

/-- `JsonObject::try_get` / `members_.find`: the value stored under a key. -/
def mapFind : List (List Char × JsonValue) → List Char → Option JsonValue
  | [], _ => none
  | (k', v') :: t, k => if k = k' then some v' else mapFind t k

/-- Keys strictly ascending, the invariant of every `std::map`. -/
def keysSorted : List (List Char × JsonValue) → Bool
  | [] => true
  | [_] => true
  | a :: b :: t => charListLt a.1 b.1 && keysSorted (b :: t)

/-- `std::isspace` in the default C locale, as used by `ParseContext`. -/
def cIsSpace (c : Char) : Bool :=
  c == ' ' || c == '\t' || c == '\n' || c == '\x0b' || c == '\x0c' || c == '\r'

/-- `std::isdigit`. -/
def cIsDigit (c : Char) : Bool :=
  48 ≤ c.toNat && c.toNat ≤ 57

/-- `ParseContext::is_seperator`: `:` always, `=` only outside strict JSON
(so also while the dialect is still `kUnknown`). -/
def is_seperator (dt : JsonDocumentType) (c : Char) : Bool :=
  c == ':' || (c == '=' && !(dt == JsonDocumentType.kNormal))

/-- The stop set shared by `select_number` and `select_identifier`:
whitespace, a separator, or one of the structural bytes. -/
def isStop (dt : JsonDocumentType) (c : Char) : Bool :=
  cIsSpace c || is_seperator dt c || c == '\x7d' || c == '\x7b' ||
    c == '[' || c == ']' || c == ','

/-- `ParseContext::select_line`: advance past everything up to and including
the first newline (or to end-of-stream). -/
def select_line : List Char → List Char
  | [] => []
  | c :: cs => if c == '\n' then cs else select_line cs

def kwTrue : List Char := ['t', 'r', 'u', 'e']
def kwFalse : List Char := ['f', 'a', 'l', 's', 'e']
def kwNull : List Char := ['n', 'u', 'l', 'l']

/-- `ParseContext::select_identifier`.  `acc` holds the bytes already inside
the token's selection in reverse order (the selection can begin before this
routine is entered: a number fallback or the `/x` prefix); `i` and the three
flags mirror the loop-local keyword tracking, which only inspects bytes
consumed by this loop.  On end-of-stream the keyword re-typing is skipped
(`if (result)`) and `unexpected_eof` is reported; the routine's `false`
return is discarded by `ParseContext::next`. -/
def select_identifier (dt : JsonDocumentType) (acc : List Char) (i : Nat)
    (isT isF isN : Bool) : List Char → Token × List Char × List Diag
  | [] => ({ type := TokenType.kIdentifier, lexeme := acc.reverse }, [], [Diag.unexpectedEof])
  | c :: cs =>
    if isStop dt c then
      let ty :=
        if isT && i == 4 then TokenType.kTrue
        else if isF && i == 5 then TokenType.kFalse
        else if isN && i == 4 then TokenType.kNull
        else TokenType.kIdentifier
      ({ type := ty, lexeme := acc.reverse }, c :: cs, [])
    else
      select_identifier dt (c :: acc) (i + 1)
        (isT && decide (i < 4) && (kwTrue.getD i ' ' == c))
        (isF && decide (i < 5) && (kwFalse.getD i ' ' == c))
        (isN && decide (i < 4) && (kwNull.getD i ' ' == c)) cs

/-- `ParseContext::select_number`.  `hadDecimal` is `true` when the caller
already swallowed an explicit `+`/`-` sign (the call sites pass `true`
there), `hadSign` starts `true` and only an exponent marker re-arms it; a
byte that is neither a number constituent nor a stop byte reclassifies the
token via `select_identifier`, keeping the selection start.  End-of-stream
simply closes the number token. -/
def select_number (dt : JsonDocumentType) (hadDecimal hadE hadSign : Bool)
    (acc : List Char) : List Char → Token × List Char × List Diag
  | [] => ({ type := TokenType.kNumber, lexeme := acc.reverse }, [], [])
  | c :: cs =>
    if cIsDigit c then select_number dt hadDecimal hadE hadSign (c :: acc) cs
    else if c == '.' && !hadDecimal then select_number dt true hadE hadSign (c :: acc) cs
    else if (c == '-' || c == '+') && !hadSign then
      select_number dt hadDecimal hadE true (c :: acc) cs
    else if (c == 'E' || c == 'e') && !hadE then
      select_number dt true true false (c :: acc) cs
    else if isStop dt c then ({ type := TokenType.kNumber, lexeme := acc.reverse }, c :: cs, [])
    else select_identifier dt acc 0 true true true (c :: cs)

/-- `ParseContext::select_string`, entered after the opening quote was
swallowed; `cs` is the stream starting at the first interior byte.  The scan
is verbatim: it stops at the first `"` byte whatever precedes it.  A quote
immediately followed by end-of-stream takes the early `return false` (no
diagnostic, selection left stale); end-of-stream later in the interior
reports `unexpected_eof`.  Both `false` returns are discarded by
`ParseContext::next`, so the string token survives either way. -/
def select_string (prev : Token) (cs : List Char) : Token × List Char × List Diag :=
  match cs with
  | [] => ({ type := TokenType.kString, lexeme := prev.lexeme }, [], [])
  | _ :: _ =>
    let interior := cs.takeWhile (fun c => !(c == '"'))
    let rest := cs.dropWhile (fun c => !(c == '"'))
    match rest with
    | [] => ({ type := TokenType.kString, lexeme := interior }, [], [Diag.unexpectedEof])
    | _ :: r => ({ type := TokenType.kString, lexeme := interior }, r, [])

/-- One iteration of the scanning loop in `ParseContext::next`: skip
whitespace, then dispatch on the first byte.  `prev` is the current token
before this call; it survives on the two EOF-after-`-`/`/` error paths
(where the C++ assigns no new type). -/
def scanToken (dt : JsonDocumentType) (prev : Token) (input : List Char) :
    Token × List Char × List Diag :=
  match input.dropWhile cIsSpace with
  | [] => ({ type := TokenType.kEOF, lexeme := [] }, [], [])
  | c :: cs =>
    if c == '\x7b' then ({ type := TokenType.kCurlyLeft, lexeme := [] }, cs, [])
    else if c == '\x7d' then ({ type := TokenType.kCurlyRight, lexeme := [] }, cs, [])
    else if c == '[' then ({ type := TokenType.kBraceLeft, lexeme := [] }, cs, [])
    else if c == ']' then ({ type := TokenType.kBraceRight, lexeme := [] }, cs, [])
    else if is_seperator dt c then ({ type := TokenType.kSeperator, lexeme := [] }, cs, [])
    else if c == ',' then ({ type := TokenType.kComma, lexeme := [] }, cs, [])
    else if c == '-' then
      match cs with
      | [] => ({ type := prev.type, lexeme := prev.lexeme }, [], [Diag.unexpectedEof])
      | a :: _ =>
        if a == '-' then ({ type := TokenType.kComment, lexeme := [] }, select_line cs, [])
        else select_number dt true false true ['-'] cs
    else if c == '+' then select_number dt true false true ['+'] cs
    else if cIsDigit c then select_number dt false false true [] (c :: cs)
    else if c == '/' then
      match cs with
      | [] => ({ type := prev.type, lexeme := prev.lexeme }, [], [Diag.unexpectedEof])
      | a :: cs' =>
        if a == '/' then ({ type := TokenType.kComment, lexeme := [] }, select_line cs', [])
        else select_identifier dt [a, '/'] 0 true true true cs'
    else if c == '"' then select_string prev cs
    else select_identifier dt [] 0 true true true (c :: cs)

/-- The do-while of `ParseContext::next`: rescan while the produced token is
a comment.  Every comment iteration consumes at least two bytes, so
`input.length + 1` fuel (supplied by `nextToken`) never runs out. -/
def nextTokenFuel : Nat → JsonDocumentType → Token → List Char →
    Token × List Char × List Diag
  | 0, _, _, _ => ({ type := TokenType.kEOF, lexeme := [] }, [], [])
  | f + 1, dt, prev, input =>
    let s := scanToken dt prev input
    if s.1.type == TokenType.kComment then
      let s' := nextTokenFuel f dt s.1 s.2.1
      (s'.1, s'.2.1, s.2.2 ++ s'.2.2)
    else s

/-- `ParseContext::next`: produce the next non-comment token. -/
def nextToken (dt : JsonDocumentType) (prev : Token) (input : List Char) :
    Token × List Char × List Diag :=
  nextTokenFuel (input.length + 1) dt prev input

/-- The observable state of a `ParseContext`: active dialect, current token,
remaining input bytes, and the diagnostics reported so far. -/
structure Ctx where
  dt : JsonDocumentType
  tok : Token
  rest : List Char
  errs : List Diag
deriving DecidableEq

/-- `context.next()` as a state transformer (its `bool` return value is
discarded at every call site in the C++). -/
def ctxNext (c : Ctx) : Ctx :=
  let r := nextToken c.dt c.tok c.rest
  { c with tok := r.1, rest := r.2.1, errs := c.errs ++ r.2.2 }

/-- `ParseContext::error` / `unexpected_token`: append one report. -/
def pushErr (c : Ctx) (d : Diag) : Ctx :=
  { c with errs := c.errs ++ [d] }

/-- The `expect<T...>(context, skip)` helper of json_parser.cc: succeed when
the current token's kind is in the list (advancing when `skip`), otherwise
report an unexpected-token error and fail. -/
def expect (c : Ctx) (types : List TokenType) (skip : Bool) : Ctx × Bool :=
  if c.tok.type ∈ types then ((if skip then ctxNext c else c), true)
  else (pushErr c (Diag.unexpectedToken c.tok.type), false)

/-- The five mutually recursive routines of the grammar driver, closed over
one fuel level: `parse_value`, `parse_array` (entry and loop), and
`parse_object` (entry and loop).  A `none` result models `return false`
(the caller's out-parameter stays unset on every such path in the C++). -/
structure Parsers where
  value : Ctx → Ctx × Option JsonValue
  array : Ctx → Ctx × Option JsonValue
  arrayLoop : Ctx → List JsonValue → Ctx × Option JsonValue
  object : Ctx → Bool → Ctx × Option JsonValue
  objectLoop : Ctx → Bool → List (List Char × JsonValue) → Ctx × Option JsonValue

/-- Fuel exhausted: every routine fails without touching the context.  The
fuel chosen by `parse_json` makes this unreachable. -/
def parsersZero : Parsers where
  value := fun c => (c, none)
  array := fun c => (c, none)
  arrayLoop := fun c _ => (c, none)
  object := fun c _ => (c, none)
  objectLoop := fun c _ _ => (c, none)

/-- One iteration of the element loop in `parse_array`, entered when the
current token is not `]`: parse a value, `emplace_back` it (`acc` holds the
elements parsed so far in reverse), enforce the strict-dialect comma rule,
skip a comma if present, and continue. -/
def arrayElementStep (p : Parsers) (c : Ctx) (acc : List JsonValue) :
    Ctx × Option JsonValue :=
  match (p.value c).2 with
  | none => ((p.value c).1, none)
  | some v =>
    if (p.value c).1.dt = JsonDocumentType.kNormal ∧
        (p.value c).1.tok.type ≠ TokenType.kComma ∧
        (p.value c).1.tok.type ≠ TokenType.kBraceRight then
      (pushErr (p.value c).1 (Diag.unexpectedToken (p.value c).1.tok.type), none)
    else
      p.arrayLoop
        (if (p.value c).1.tok.type = TokenType.kComma then ctxNext (p.value c).1
         else (p.value c).1)
        (v :: acc)

/-- The key admission test at the top of the member loop: a string under
strict dialect, a string or identifier under simplified (no test fires for
`kUnknown`, which never reaches the grammar routines). -/
def expectKey (c : Ctx) : Ctx × Bool :=
  if c.dt = JsonDocumentType.kNormal then expect c [TokenType.kString] false
  else if c.dt = JsonDocumentType.kSimplified then
    expect c [TokenType.kString, TokenType.kIdentifier] false
  else (c, true)

/-- After a key was accepted: skip it and expect the mandatory separator. -/
def sepCtx (c : Ctx) : Ctx × Bool :=
  expect (ctxNext (expectKey c).1) [TokenType.kSeperator] true

/-- One iteration of the member loop in `parse_object`, entered when the
current token closes neither the object nor (at root) the stream: expect a
key, a separator, a value; insert through `JsonObject::insert`; enforce the
strict-dialect comma rule; skip a comma if present; continue. -/
def objectMemberStep (p : Parsers) (c : Ctx) (root : Bool)
    (acc : List (List Char × JsonValue)) : Ctx × Option JsonValue :=
  if (expectKey c).2 then
    if (sepCtx c).2 then
      match (p.value (sepCtx c).1).2 with
      | none => ((p.value (sepCtx c).1).1, none)
      | some v =>
        if (p.value (sepCtx c).1).1.dt = JsonDocumentType.kNormal ∧
            (p.value (sepCtx c).1).1.tok.type ≠ TokenType.kComma ∧
            (p.value (sepCtx c).1).1.tok.type ≠ TokenType.kCurlyRight then
          (pushErr (p.value (sepCtx c).1).1
            (Diag.unexpectedToken (p.value (sepCtx c).1).1.tok.type), none)
        else
          p.objectLoop
            (if (p.value (sepCtx c).1).1.tok.type = TokenType.kComma then
              ctxNext (p.value (sepCtx c).1).1
             else (p.value (sepCtx c).1).1)
            root (mapInsert acc (expectKey c).1.tok.lexeme v)
    else ((sepCtx c).1, none)
  else ((expectKey c).1, none)

/-- One fuel level of the grammar driver, each routine transcribed from
json_parser.cc.  `arrayLoop` accumulates elements in reverse (`emplace_back`
order restored by `List.reverse` at the closing bracket); `objectLoop`
accumulates members through `mapInsert` exactly as `JsonObject::insert`. -/
def parsersSucc (p : Parsers) : Parsers where
  value := fun c =>
    match c.tok.type with
    | TokenType.kBraceLeft => p.array c
    | TokenType.kCurlyLeft => p.object c false
    | TokenType.kNumber => (ctxNext c, some (JsonValue.num c.tok.lexeme))
    | TokenType.kString => (ctxNext c, some (JsonValue.str c.tok.lexeme))
    | TokenType.kTrue => (ctxNext c, some (JsonValue.boolean true))
    | TokenType.kFalse => (ctxNext c, some (JsonValue.boolean false))
    | TokenType.kNull => (ctxNext c, some JsonValue.null)
    | _ => (c, none)
  array := fun c =>
    let e := expect c [TokenType.kBraceLeft] true
    if e.2 then p.arrayLoop e.1 [] else (e.1, none)
  arrayLoop := fun c acc =>
    if c.tok.type = TokenType.kBraceRight then
      let e := expect c [TokenType.kBraceRight] true
      if e.2 then (e.1, some (JsonValue.arr acc.reverse)) else (e.1, none)
    else arrayElementStep p c acc
  object := fun c root =>
    if c.dt = JsonDocumentType.kNormal ∨ root = false then
      let e := expect c [TokenType.kCurlyLeft] true
      if e.2 then p.objectLoop e.1 root [] else (e.1, none)
    else p.objectLoop c root []
  objectLoop := fun c root acc =>
    if c.tok.type = TokenType.kCurlyRight ∨
        (root = true ∧ c.tok.type = TokenType.kEOF) then
      if c.dt = JsonDocumentType.kNormal ∨ root = false then
        let e := expect c [TokenType.kCurlyRight] true
        if e.2 then (e.1, some (JsonValue.obj acc)) else (e.1, none)
      else (c, some (JsonValue.obj acc))
    else objectMemberStep p c root acc

/-- The driver at a given fuel level; every inner call steps one level down,
so the recursion is structural on the fuel. -/
def parsers : Nat → Parsers
  | 0 => parsersZero
  | f + 1 => parsersSucc (parsers f)

/-- `parse_value` of json_parser.cc. -/
def parse_value (f : Nat) (c : Ctx) : Ctx × Option JsonValue :=
  (parsers f).value c

/-- `parse_array` of json_parser.cc. -/
def parse_array (f : Nat) (c : Ctx) : Ctx × Option JsonValue :=
  (parsers f).array c

/-- The element loop inside `parse_array`. -/
def parse_array_loop (f : Nat) (c : Ctx) (acc : List JsonValue) :
    Ctx × Option JsonValue :=
  (parsers f).arrayLoop c acc

/-- `parse_object` of json_parser.cc (`root` is the implicit-root flag). -/
def parse_object (f : Nat) (c : Ctx) (root : Bool) : Ctx × Option JsonValue :=
  (parsers f).object c root

/-- The member loop inside `parse_object`. -/
def parse_object_loop (f : Nat) (c : Ctx) (root : Bool)
    (acc : List (List Char × JsonValue)) : Ctx × Option JsonValue :=
  (parsers f).objectLoop c root acc

/-- The dialect decision in `parse_document_root`: when the dialect is still
`kUnknown`, a first token `{` or `[` selects strict JSON and anything else
selects simplified; otherwise the context passes through unchanged.  This is
the only call site of `set_document_type`. -/
def decideDialect (c1 : Ctx) : Ctx :=
  if c1.dt = JsonDocumentType.kUnknown then
    if c1.tok.type = TokenType.kCurlyLeft ∨ c1.tok.type = TokenType.kBraceLeft then
      { c1 with dt := JsonDocumentType.kNormal }
    else { c1 with dt := JsonDocumentType.kSimplified }
  else c1

/-- `parse_document_root`: fetch the first token, decide the dialect when it
is still `kUnknown` (from that token only), then dispatch. -/
def parse_document_root (fuel : Nat) (c : Ctx) : Ctx × Option JsonValue :=
  if (decideDialect (ctxNext c)).dt = JsonDocumentType.kSimplified then
    (parsers fuel).object (decideDialect (ctxNext c)) true
  else if (decideDialect (ctxNext c)).tok.type = TokenType.kCurlyLeft then
    (parsers fuel).object (decideDialect (ctxNext c)) false
  else if (decideDialect (ctxNext c)).tok.type = TokenType.kBraceLeft then
    (parsers fuel).array (decideDialect (ctxNext c))
  else
    (pushErr (decideDialect (ctxNext c))
      (Diag.unexpectedToken (decideDialect (ctxNext c)).tok.type), none)

/-- The `currentToken` before the first `next()` (value-uninitialized in the
C++; the model fixes it as an empty EOF token, see the header comment). -/
def initialToken : Token := { type := TokenType.kEOF, lexeme := [] }

/-- `parse_json`: the public entry point.  The result's second component
models the out-parameter `document`: `some` iff the call returns `true`;
the C++ assigns `document` only immediately before a top-level `return
true`, so `none` also means the out-parameter was never written.  The fuel
`(n + 2) * 4` exceeds the call depth any input of length `n` can cause (at
most three driver calls are entered per consumed byte, plus a constant). -/
def parse_json (input : List Char) (hint : JsonDocumentType) :
    Ctx × Option JsonValue :=
  parse_document_root ((input.length + 2) * 4)
    { dt := hint, tok := initialToken, rest := input, errs := [] }

/-- Capacity of a `ParseBlock` (`std::array<char, 1024>`). -/
def blockCap : Nat := 1024

/-- A byte source (`IJsonParserSource`) as the list of deliveries it is
prepared to make: `Read(buffer, n)` hands over the next pending delivery,
truncated to the requested `n` (the spill stays pending), and returns zero
bytes once the deliveries are exhausted.  This models the same byte sequence
being served under different chunkings (one big read, one byte per read,
anything in between). -/
def sourceRead : List (List Char) → Nat → List Char × List (List Char)
  | [], _ => ([], [])
  | h :: t, n => if h.length ≤ n then (h, t) else (h.take n, h.drop n :: t)

/-- The filling loop of `allocate_next_block`: keep calling `Read` for the
remaining capacity until the block is full or a read returns zero bytes;
a zero-byte read before any data landed signals exhaustion (`none`).  Each
recursive step adds at least one byte to `acc`, so `blockCap + 1` fuel
suffices. -/
def fillBlock : Nat → List (List Char) → List Char →
    Option (List Char) × List (List Char)
  | 0, src, acc => (some acc, src)
  | f + 1, src, acc =>
    if blockCap ≤ acc.length then (some acc, src)
    else
      if (sourceRead src (blockCap - acc.length)).1 = [] then
        ((if acc = [] then none else some acc), (sourceRead src (blockCap - acc.length)).2)
      else
        fillBlock f (sourceRead src (blockCap - acc.length)).2
          (acc ++ (sourceRead src (blockCap - acc.length)).1)

/-- `ParseContext::allocate_next_block`. -/
def allocate_next_block (src : List (List Char)) :
    Option (List Char) × List (List Char) :=
  fillBlock (blockCap + 1) src []

/-- The chain of blocks the cursor walks: blocks are allocated on demand
until the source is drained.  Each block holds at least one byte, so
`srcLen src + 1` fuel (supplied by `sourceBytes`) never runs out. -/
def readBlocks : Nat → List (List Char) → List (List Char)
  | 0, _ => []
  | f + 1, src =>
    match allocate_next_block src with
    | (none, _) => []
    | (some b, src') => b :: readBlocks f src'

/-- Total number of bytes a source will deliver. -/
def srcLen (src : List (List Char)) : Nat :=
  (src.map List.length).sum

/-- The byte sequence the cursor observes: `next_char` walks the block chain
strictly forward, one byte at a time, rebasing its offset at each block
boundary, and `Selection::data()` materializes the in-order bytes between
two positions — so the parse consumes exactly the concatenation of the
blocks' contents. -/
def sourceBytes (src : List (List Char)) : List Char :=
  (readBlocks (srcLen src + 1) src).flatten

/-- `parse_json` driven by a chunked byte source. -/
def parse_json_from_source (src : List (List Char)) (hint : JsonDocumentType) :
    Ctx × Option JsonValue :=
  parse_json (sourceBytes src) hint



/-! ## Concrete scenario inputs -/

/-- The document `{"a":1,"a":2}` of the duplicate-key scenario. -/
def inputDupKey : List Char :=
  ['\x7b', '"', 'a', '"', ':', '1', ',', '"', 'a', '"', ':', '2', '\x7d']

/-- The lexeme `-1.5` followed by a space. -/
def inputSignedDecimal : List Char := ['-', '1', '.', '5', ' ']

/-- The strict document `[-1.5]`. -/
def inputSignedDecimalDoc : List Char := ['[', '-', '1', '.', '5', ']']

/-- The token input for a string holding a backslash before an interior
quote (the bytes of a quoted `a`-backslash-quote-`b`). -/
def inputEscapedQuote : List Char := ['"', 'a', '\\', '"', 'b', '"']

/-- The document `a:"xyz` (simplified member whose string is unterminated). -/
def inputUnterminated : List Char := ['a', ':', '"', 'x', 'y', 'z']

/-- The truncated document `{"a":` with no further bytes. -/
def inputTruncated : List Char := ['\x7b', '"', 'a', '"', ':']

/-- The strict document `[1 2]` (missing comma). -/
def inputMissingComma : List Char := ['[', '1', ' ', '2', ']']

/-- The simplified document `a:[1 2]` (optional comma omitted). -/
def inputSimplifiedArray : List Char := ['a', ':', '[', '1', ' ', '2', ']']

/-- The document `a:1` followed by a line comment the stream ends inside. -/
def inputCommentAtEof : List Char := ['a', ':', '1', '\n', '-', '-', 'c']

/-- The document `a:1`, whose final byte is the last digit of a number. -/
def inputTrailingNumber : List Char := ['a', ':', '1']

/-- A strict-dialect context sitting on the element `1` of `[1 2]`, used to
witness the strict comma rule. -/
def c8Ctx : Ctx :=
  { dt := JsonDocumentType.kNormal, tok := { type := TokenType.kNumber, lexeme := ['1'] },
    rest := [' ', '2', ']'], errs := [] }

/-! ## Helper lemmas

Equation lemmas for one fuel level of the grammar driver (all definitional),
and the invariant that no grammar routine ever changes the active dialect
(`set_document_type` is called only in `parse_document_root`). -/

theorem ctxNext_dt (c : Ctx) : (ctxNext c).dt = c.dt := rfl
theorem pushErr_dt (c : Ctx) (d : Diag) : (pushErr c d).dt = c.dt := rfl
theorem expect_dt (c : Ctx) (ts : List TokenType) (sk : Bool) :
    ((expect c ts sk).1).dt = c.dt := by
  unfold expect
  split
  · split <;> simp [ctxNext_dt]
  · rfl
theorem expectKey_dt (c : Ctx) : ((expectKey c).1).dt = c.dt := by
  unfold expectKey
  split
  · exact expect_dt ..
  · split
    · exact expect_dt ..
    · rfl
theorem sepCtx_dt (c : Ctx) : ((sepCtx c).1).dt = c.dt := by
  unfold sepCtx
  rw [expect_dt, ctxNext_dt, expectKey_dt]

theorem parse_value_succ (f : Nat) (c : Ctx) :
    parse_value (f + 1) c =
      match c.tok.type with
      | TokenType.kBraceLeft => parse_array f c
      | TokenType.kCurlyLeft => parse_object f c false
      | TokenType.kNumber => (ctxNext c, some (JsonValue.num c.tok.lexeme))
      | TokenType.kString => (ctxNext c, some (JsonValue.str c.tok.lexeme))
      | TokenType.kTrue => (ctxNext c, some (JsonValue.boolean true))
      | TokenType.kFalse => (ctxNext c, some (JsonValue.boolean false))
      | TokenType.kNull => (ctxNext c, some JsonValue.null)
      | _ => (c, none) := rfl

theorem parse_array_succ (f : Nat) (c : Ctx) :
    parse_array (f + 1) c =
      if (expect c [TokenType.kBraceLeft] true).2 then
        parse_array_loop f (expect c [TokenType.kBraceLeft] true).1 []
      else ((expect c [TokenType.kBraceLeft] true).1, none) := rfl

theorem parse_array_loop_succ (f : Nat) (c : Ctx) (acc : List JsonValue) :
    parse_array_loop (f + 1) c acc =
      if c.tok.type = TokenType.kBraceRight then
        if (expect c [TokenType.kBraceRight] true).2 then
          ((expect c [TokenType.kBraceRight] true).1, some (JsonValue.arr acc.reverse))
        else ((expect c [TokenType.kBraceRight] true).1, none)
      else arrayElementStep (parsers f) c acc := rfl

theorem parse_object_succ (f : Nat) (c : Ctx) (root : Bool) :
    parse_object (f + 1) c root =
      if c.dt = JsonDocumentType.kNormal ∨ root = false then
        if (expect c [TokenType.kCurlyLeft] true).2 then
          parse_object_loop f (expect c [TokenType.kCurlyLeft] true).1 root []
        else ((expect c [TokenType.kCurlyLeft] true).1, none)
      else parse_object_loop f c root [] := rfl

theorem parse_object_loop_succ (f : Nat) (c : Ctx) (root : Bool)
    (acc : List (List Char × JsonValue)) :
    parse_object_loop (f + 1) c root acc =
      if c.tok.type = TokenType.kCurlyRight ∨
          (root = true ∧ c.tok.type = TokenType.kEOF) then
        if c.dt = JsonDocumentType.kNormal ∨ root = false then
          if (expect c [TokenType.kCurlyRight] true).2 then
            ((expect c [TokenType.kCurlyRight] true).1, some (JsonValue.obj acc))
          else ((expect c [TokenType.kCurlyRight] true).1, none)
        else (c, some (JsonValue.obj acc))
      else objectMemberStep (parsers f) c root acc := rfl

theorem parsers_dt (f : Nat) :
    (∀ c, (parse_value f c).1.dt = c.dt) ∧
    (∀ c, (parse_array f c).1.dt = c.dt) ∧
    (∀ c acc, (parse_array_loop f c acc).1.dt = c.dt) ∧
    (∀ c root, (parse_object f c root).1.dt = c.dt) ∧
    (∀ c root acc, (parse_object_loop f c root acc).1.dt = c.dt) := by
  induction f with
  | zero =>
    exact ⟨fun c => rfl, fun c => rfl, fun c _ => rfl, fun c _ => rfl, fun c _ _ => rfl⟩
  | succ f ih =>
    obtain ⟨ihv, iha, ihal, iho, ihol⟩ := ih
    have hstepA : ∀ c acc, (arrayElementStep (parsers f) c acc).1.dt = c.dt := by
      intro c acc
      unfold arrayElementStep
      split
      · exact ihv c
      · split
        · exact (pushErr_dt ..).trans (ihv c)
        · refine (ihal ..).trans ?_
          split
          · exact (ctxNext_dt _).trans (ihv c)
          · exact ihv c
    have hstepO : ∀ c root acc, (objectMemberStep (parsers f) c root acc).1.dt = c.dt := by
      intro c root acc
      unfold objectMemberStep
      split
      · split
        · split
          · exact (ihv _).trans (sepCtx_dt c)
          · split
            · exact (pushErr_dt ..).trans ((ihv _).trans (sepCtx_dt c))
            · refine (ihol ..).trans ?_
              split
              · exact (ctxNext_dt _).trans ((ihv _).trans (sepCtx_dt c))
              · exact (ihv _).trans (sepCtx_dt c)
        · exact sepCtx_dt c
      · exact expectKey_dt c
    refine ⟨?_, ?_, ?_, ?_, ?_⟩
    · intro c
      rw [parse_value_succ]
      cases htt : c.tok.type
      case kBraceLeft => exact iha c
      case kCurlyLeft => exact iho c false
      all_goals rfl
    · intro c
      rw [parse_array_succ]
      split
      · rw [ihal, expect_dt]
      · exact expect_dt ..
    · intro c acc
      rw [parse_array_loop_succ]
      split
      · split <;> exact expect_dt ..
      · exact hstepA c acc
    · intro c root
      rw [parse_object_succ]
      split
      · split
        · rw [ihol, expect_dt]
        · exact expect_dt ..
      · exact ihol ..
    · intro c root acc
      rw [parse_object_loop_succ]
      split
      · split
        · split <;> exact expect_dt ..
        · rfl
      · exact hstepO c root acc


/-! Dialect decision and its preservation through `parse_document_root`. -/

theorem decideDialect_dt (c1 : Ctx) (h : c1.dt = JsonDocumentType.kUnknown) :
    (decideDialect c1).dt =
      if c1.tok.type = TokenType.kCurlyLeft ∨ c1.tok.type = TokenType.kBraceLeft
      then JsonDocumentType.kNormal else JsonDocumentType.kSimplified := by
  unfold decideDialect
  rw [if_pos h]
  split <;> rfl

theorem decideDialect_tok (c1 : Ctx) : (decideDialect c1).tok = c1.tok := by
  unfold decideDialect
  split
  · split <;> rfl
  · rfl

theorem parse_document_root_dt (fuel : Nat) (c : Ctx)
    (h : c.dt = JsonDocumentType.kUnknown) :
    (parse_document_root fuel c).1.dt =
      if (ctxNext c).tok.type = TokenType.kCurlyLeft ∨
          (ctxNext c).tok.type = TokenType.kBraceLeft
      then JsonDocumentType.kNormal else JsonDocumentType.kSimplified := by
  obtain ⟨hv, ha, hal, ho, hol⟩ := parsers_dt fuel
  have hdec : (decideDialect (ctxNext c)).dt =
      if (ctxNext c).tok.type = TokenType.kCurlyLeft ∨
          (ctxNext c).tok.type = TokenType.kBraceLeft
      then JsonDocumentType.kNormal else JsonDocumentType.kSimplified :=
    decideDialect_dt _ (by rw [ctxNext_dt, h])
  unfold parse_document_root
  split
  · exact (ho ..).trans hdec
  · split
    · exact (ho ..).trans hdec
    · split
      · exact (ha ..).trans hdec
      · exact (pushErr_dt ..).trans hdec


/-! Ordering facts about `std::map` keys, for the duplicate-key claim. -/

theorem charListLt_irrefl (a : List Char) : charListLt a a = false := by
  induction a with
  | nil => rfl
  | cons x xs ih => simp [charListLt, ih]

theorem charListLt_trans : ∀ a b c : List Char,
    charListLt a b = true → charListLt b c = true → charListLt a c = true := by
  intro a
  induction a with
  | nil =>
    intro b c hab hbc
    cases b with
    | nil => exact absurd hab (by simp [charListLt])
    | cons y bs =>
      cases c with
      | nil => exact absurd hbc (by simp [charListLt])
      | cons z cs => simp [charListLt]
  | cons x xs ih =>
    intro b c hab hbc
    cases b with
    | nil => exact absurd hab (by simp [charListLt])
    | cons y bs =>
      cases c with
      | nil => exact absurd hbc (by simp [charListLt])
      | cons z cs =>
        simp only [charListLt] at hab hbc ⊢
        rcases lt_trichotomy x y with hxy | hxy | hxy
        · rcases lt_trichotomy y z with hyz | hyz | hyz
          · rw [if_pos (hxy.trans hyz)]
          · subst hyz; rw [if_pos hxy]
          · rw [if_pos hyz, if_neg (lt_asymm hyz)] at hbc
            exact absurd hbc (by simp)
        · subst hxy
          rw [if_neg (lt_irrefl x), if_neg (lt_irrefl x)] at hab
          rcases lt_trichotomy x z with hxz | hxz | hxz
          · rw [if_pos hxz]
          · subst hxz
            rw [if_neg (lt_irrefl x), if_neg (lt_irrefl x)] at hbc ⊢
            exact ih bs cs hab hbc
          · rw [if_neg (lt_asymm hxz), if_pos hxz] at hbc
            exact absurd hbc (by simp)
        · rw [if_neg (lt_asymm hxy), if_pos hxy] at hab
          exact absurd hab (by simp)

theorem charListLt_conn : ∀ a b : List Char,
    charListLt a b = false → charListLt b a = false → a = b := by
  intro a
  induction a with
  | nil =>
    intro b hab _
    cases b with
    | nil => rfl
    | cons y bs => exact absurd hab (by simp [charListLt])
  | cons x xs ih =>
    intro b hab hba
    cases b with
    | nil => exact absurd hba (by simp [charListLt])
    | cons y bs =>
      simp only [charListLt] at hab hba
      rcases lt_trichotomy x y with hxy | hxy | hxy
      · rw [if_pos hxy] at hab; exact absurd hab (by simp)
      · subst hxy
        rw [if_neg (lt_irrefl x), if_neg (lt_irrefl x)] at hab hba
        rw [ih bs hab hba]
      · rw [if_pos hxy] at hba; exact absurd hba (by simp)

theorem keysSorted_cons (a : List Char × JsonValue) (m : List (List Char × JsonValue))
    (h : keysSorted (a :: m) = true) : keysSorted m = true := by
  cases m with
  | nil => rfl
  | cons b t =>
    simp only [keysSorted, Bool.and_eq_true] at h
    exact h.2

theorem keysSorted_head_lt (k0 : List Char) (v0 : JsonValue)
    (m : List (List Char × JsonValue)) (h : keysSorted ((k0, v0) :: m) = true) :
    ∀ p ∈ m, charListLt k0 p.1 = true := by
  induction m generalizing k0 v0 with
  | nil => intro p hp; cases hp
  | cons b t ih =>
    obtain ⟨bk, bv⟩ := b
    intro p hp
    have h1 : charListLt k0 bk = true := by
      simp only [keysSorted, Bool.and_eq_true] at h
      exact h.1
    cases hp with
    | head => exact h1
    | tail _ hp' =>
      have h2 : keysSorted ((bk, bv) :: t) = true := keysSorted_cons _ _ h
      exact charListLt_trans _ _ _ h1 (ih bk bv h2 p hp')

theorem mapFind_none_of_lt (k : List Char) : ∀ (m : List (List Char × JsonValue))
    (k0 : List Char) (v0 : JsonValue), keysSorted ((k0, v0) :: m) = true →
    charListLt k k0 = true → mapFind ((k0, v0) :: m) k = none := by
  intro m
  induction m with
  | nil =>
    intro k0 v0 _ hlt
    simp only [mapFind]
    rw [if_neg fun hk => by subst hk; rw [charListLt_irrefl] at hlt; cases hlt]
  | cons b t ih =>
    obtain ⟨bk, bv⟩ := b
    intro k0 v0 hs hlt
    have hb : charListLt k0 bk = true := by
      simp only [keysSorted, Bool.and_eq_true] at hs
      exact hs.1
    have hst : keysSorted ((bk, bv) :: t) = true := keysSorted_cons _ _ hs
    show (if k = k0 then some v0 else mapFind ((bk, bv) :: t) k) = none
    rw [if_neg fun hk => by subst hk; rw [charListLt_irrefl] at hlt; cases hlt]
    exact ih bk bv hst (charListLt_trans _ _ _ hlt hb)

theorem mapInsert_no_op (m : List (List Char × JsonValue)) (k : List Char)
    (v0 v : JsonValue) (hs : keysSorted m = true) (hf : mapFind m k = some v0) :
    mapInsert m k v = m := by
  induction m with
  | nil => cases hf
  | cons a t ih =>
    obtain ⟨k', v'⟩ := a
    by_cases hk : k = k'
    · subst hk
      simp only [mapInsert]
      rw [if_neg (by rw [charListLt_irrefl]; simp),
        if_neg (by rw [charListLt_irrefl]; simp)]
    · have hf' : mapFind t k = some v0 := by
        simpa [mapFind, if_neg hk] using hf
      have hne1 : charListLt k k' = false := by
        cases hx : charListLt k k' with
        | false => rfl
        | true =>
          have hnone := mapFind_none_of_lt k t k' v' hs hx
          rw [hf] at hnone
          simp at hnone
      simp only [mapInsert]
      rw [if_neg (by simp [hne1])]
      cases hx2 : charListLt k' k with
      | true =>
        rw [if_pos rfl, ih (keysSorted_cons _ _ hs) hf']
      | false =>
        exact absurd (charListLt_conn k k' hne1 hx2) hk


/-! Tokenizer-level scan lemmas. -/

theorem takeWhile_append_stop {p : Char → Bool} :
    ∀ (s : List Char) (x : Char) (r : List Char), (∀ c ∈ s, p c = true) → p x = false →
    (s ++ x :: r).takeWhile p = s := by
  intro s
  induction s with
  | nil => intro x r _ hx; simp [List.takeWhile_cons, hx]
  | cons a t ih =>
    intro x r h hx
    have ha : p a = true := h a (by simp)
    simp only [List.cons_append, List.takeWhile_cons, ha, if_pos]
    rw [ih x r (fun c hc => h c (by simp [hc])) hx]

theorem dropWhile_append_stop {p : Char → Bool} :
    ∀ (s : List Char) (x : Char) (r : List Char), (∀ c ∈ s, p c = true) → p x = false →
    (s ++ x :: r).dropWhile p = x :: r := by
  intro s
  induction s with
  | nil => intro x r _ hx; simp [List.dropWhile_cons, hx]
  | cons a t ih =>
    intro x r h hx
    have ha : p a = true := h a (by simp)
    simp only [List.cons_append, List.dropWhile_cons, ha, if_pos]
    rw [ih x r (fun c hc => h c (by simp [hc])) hx]

/-- A scan that does not yield a comment is the whole of `next()`. -/
theorem nextToken_eq_scan (dt : JsonDocumentType) (prev : Token) (input : List Char)
    (h : ((scanToken dt prev input).1.type == TokenType.kComment) = false) :
    nextToken dt prev input = scanToken dt prev input := by
  show nextTokenFuel (input.length + 1) dt prev input = scanToken dt prev input
  show (if ((scanToken dt prev input).1.type == TokenType.kComment) = true then _
    else scanToken dt prev input) = scanToken dt prev input
  rw [h]
  simp

/-- `select_string` on an interior that still holds its closing quote. -/
theorem select_string_closed (prev : Token) (s rest : List Char) (h : '"' ∉ s) :
    select_string prev (s ++ '"' :: rest) =
      ({ type := TokenType.kString, lexeme := s }, rest, []) := by
  have hp : ∀ c ∈ s, (!(c == '"')) = true := by
    intro c hc
    have : c ≠ '"' := fun he => h (he ▸ hc)
    simp [this]
  have hq : (!(('"' : Char) == '"')) = false := by simp
  cases s with
  | nil =>
    simp [select_string, List.takeWhile_cons, List.dropWhile_cons]
  | cons a t =>
    have h1 : ((a :: t) ++ '"' :: rest).takeWhile (fun c => !(c == '"')) = a :: t :=
      takeWhile_append_stop (a :: t) '"' rest hp hq
    have h2 : ((a :: t) ++ '"' :: rest).dropWhile (fun c => !(c == '"')) = '"' :: rest :=
      dropWhile_append_stop (a :: t) '"' rest hp hq
    show select_string prev (a :: (t ++ '"' :: rest)) = _
    unfold select_string
    simp only [← List.cons_append, h1, h2]

theorem nextToken_string (dt : JsonDocumentType) (prev : Token) (s rest : List Char)
    (h : '"' ∉ s) :
    nextToken dt prev ('"' :: (s ++ '"' :: rest)) =
      ({ type := TokenType.kString, lexeme := s }, rest, []) := by
  have hscan : scanToken dt prev ('"' :: (s ++ '"' :: rest)) =
      ({ type := TokenType.kString, lexeme := s }, rest, []) :=
    (show scanToken dt prev ('"' :: (s ++ '"' :: rest)) =
      select_string prev (s ++ '"' :: rest) from rfl).trans (select_string_closed prev s rest h)
  rw [nextToken_eq_scan _ _ _ (by rw [hscan]; rfl), hscan]

/-- An unterminated string with at least one interior byte: the scan reaches
end-of-stream, reports `unexpected_eof`, and the token survives. -/
theorem select_string_unterminated (prev : Token) (s : List Char) (hne : s ≠ [])
    (h : '"' ∉ s) :
    select_string prev s =
      ({ type := TokenType.kString, lexeme := s }, [], [Diag.unexpectedEof]) := by
  have hp : ∀ c ∈ s, (!(c == '"')) = true := by
    intro c hc
    have : c ≠ '"' := fun he => h (he ▸ hc)
    simp [this]
  cases s with
  | nil => exact absurd rfl hne
  | cons a t =>
    unfold select_string
    rw [show ((a :: t).takeWhile (fun c => !(c == '"'))) = a :: t from
      List.takeWhile_eq_self_iff.2 hp]
    rw [show ((a :: t).dropWhile (fun c => !(c == '"'))) = [] from
      List.dropWhile_eq_nil_iff.2 hp]

/-- Scanning a run of digits: every digit is consumed, and end-of-stream
closes the number token with no diagnostic. -/
theorem select_number_digits (dt : JsonDocumentType) (hD hE hS : Bool) :
    ∀ (ds acc : List Char), (∀ c ∈ ds, cIsDigit c = true) →
    select_number dt hD hE hS acc ds =
      ({ type := TokenType.kNumber, lexeme := acc.reverse ++ ds }, [], []) := by
  intro ds
  induction ds with
  | nil => intro acc _; simp [select_number]
  | cons d t ih =>
    intro acc h
    unfold select_number
    rw [if_pos (h d (by simp))]
    rw [ih (d :: acc) (fun c hc => h c (by simp [hc]))]
    simp

/-- Scanning identifier constituents: when no stop byte occurs the scan
reaches end-of-stream, keeps the generic identifier kind (the keyword
re-typing is skipped) and reports `unexpected_eof`. -/
theorem select_identifier_eof (dt : JsonDocumentType) :
    ∀ (cs acc : List Char) (i : Nat) (fT fF fN : Bool),
    (∀ c ∈ cs, isStop dt c = false) →
    select_identifier dt acc i fT fF fN cs =
      ({ type := TokenType.kIdentifier, lexeme := acc.reverse ++ cs }, [],
        [Diag.unexpectedEof]) := by
  intro cs
  induction cs with
  | nil => intro acc i fT fF fN _; simp [select_identifier]
  | cons c t ih =>
    intro acc i fT fF fN h
    unfold select_identifier
    rw [if_neg (by rw [h c (by simp)]; simp)]
    rw [ih (c :: acc) ..]
    · simp
    · intro x hx; exact h x (by simp [hx])

/-- A line comment runs to end-of-stream when no newline remains. -/
theorem select_line_eof : ∀ cs : List Char, '\n' ∉ cs → select_line cs = [] := by
  intro cs
  induction cs with
  | nil => intro _; rfl
  | cons c t ih =>
    intro h
    unfold select_line
    rw [if_neg (by simp; exact fun he => h (by simp [he]))]
    exact ih (fun hm => h (by simp [hm]))

/-- Whitespace-only input scans to the end-of-stream token. -/
theorem scanToken_ws (dt : JsonDocumentType) (prev : Token) (ws : List Char)
    (h : ∀ c ∈ ws, cIsSpace c = true) :
    scanToken dt prev ws = ({ type := TokenType.kEOF, lexeme := [] }, [], []) := by
  unfold scanToken
  rw [List.dropWhile_eq_nil_iff.2 h]

theorem nextToken_ws (dt : JsonDocumentType) (prev : Token) (ws : List Char)
    (h : ∀ c ∈ ws, cIsSpace c = true) :
    nextToken dt prev ws = ({ type := TokenType.kEOF, lexeme := [] }, [], []) := by
  rw [nextToken_eq_scan _ _ _ (by rw [scanToken_ws dt prev ws h]; rfl),
    scanToken_ws dt prev ws h]

/-- The comment loop in `next()`: when the scan yields a comment token the
tokenizer releases it and scans again on the remaining bytes. -/
theorem nextTokenFuel_comment_step (f : Nat) (dt : JsonDocumentType) (prev : Token)
    (input : List Char) (hc : (scanToken dt prev input).1.type = TokenType.kComment) :
    nextTokenFuel (f + 1) dt prev input =
      ((nextTokenFuel f dt (scanToken dt prev input).1 (scanToken dt prev input).2.1).1,
       (nextTokenFuel f dt (scanToken dt prev input).1 (scanToken dt prev input).2.1).2.1,
       (scanToken dt prev input).2.2 ++
         (nextTokenFuel f dt (scanToken dt prev input).1 (scanToken dt prev input).2.1).2.2) := by
  show (if ((scanToken dt prev input).1.type == TokenType.kComment) = true then _ else _) = _
  rw [hc]
  simp

/-- A line comment the stream ends inside: the tokenizer loops past it and
produces the end-of-stream token with no diagnostic. -/
theorem nextToken_comment_eof (dt : JsonDocumentType) (prev : Token) (cs : List Char)
    (h : '\n' ∉ cs) :
    nextToken dt prev ('-' :: '-' :: cs) =
      ({ type := TokenType.kEOF, lexeme := [] }, [], []) := by
  have hline : select_line ('-' :: cs) = [] := by
    apply select_line_eof
    intro hm
    rcases List.mem_cons.1 hm with h1 | h1
    · exact absurd h1 (by decide)
    · exact h h1
  show nextTokenFuel ((cs.length + 2) + 1) dt prev ('-' :: '-' :: cs) = _
  rw [nextTokenFuel_comment_step (cs.length + 2) dt prev ('-' :: '-' :: cs) rfl]
  rw [show scanToken dt prev ('-' :: '-' :: cs) =
    ({ type := TokenType.kComment, lexeme := [] }, select_line ('-' :: cs), []) from rfl]
  simp only [hline]
  rw [show nextTokenFuel (cs.length + 2) dt
      ({ type := TokenType.kComment, lexeme := [] } : Token) [] =
      ({ type := TokenType.kEOF, lexeme := [] }, [], []) from rfl]
  simp


theorem digit_beq_false (d x : Char) (hd : cIsDigit d = true) (hx : cIsDigit x = false) :
    (d == x) = false := by
  rw [beq_eq_false_iff_ne]
  intro he
  subst he
  rw [hd] at hx
  cases hx

theorem digit_not_space (d : Char) (hd : cIsDigit d = true) : cIsSpace d = false := by
  unfold cIsSpace
  rw [digit_beq_false d ' ' hd rfl, digit_beq_false d '\t' hd rfl,
    digit_beq_false d '\n' hd rfl, digit_beq_false d '\x0b' hd rfl,
    digit_beq_false d '\x0c' hd rfl, digit_beq_false d '\r' hd rfl]
  rfl

/-- A digit begins a number token; an all-digit stream ends in a clean
number token with no diagnostic. -/
theorem nextToken_digits (dt : JsonDocumentType) (prev : Token) (d : Char)
    (ds : List Char) (hd : cIsDigit d = true) (h : ∀ c ∈ ds, cIsDigit c = true) :
    nextToken dt prev (d :: ds) =
      ({ type := TokenType.kNumber, lexeme := d :: ds }, [], []) := by
  have hscan : scanToken dt prev (d :: ds) =
      ({ type := TokenType.kNumber, lexeme := d :: ds }, [], []) := by
    unfold scanToken
    rw [List.dropWhile_cons, digit_not_space d hd]
    simp only [Bool.false_eq_true, if_false]
    rw [digit_beq_false d '\x7b' hd rfl, digit_beq_false d '\x7d' hd rfl,
      digit_beq_false d '[' hd rfl, digit_beq_false d ']' hd rfl,
      digit_beq_false d ',' hd rfl, digit_beq_false d '-' hd rfl,
      digit_beq_false d '+' hd rfl]
    rw [show is_seperator dt d = false from by
      unfold is_seperator
      rw [digit_beq_false d ':' hd rfl, digit_beq_false d '=' hd rfl]
      rfl]
    simp only [Bool.false_eq_true, if_false, hd, if_true]
    rw [select_number_digits dt false false true (d :: ds) [] (by
      intro c hc
      rcases List.mem_cons.1 hc with h1 | h1
      · subst h1; exact hd
      · exact h c h1)]
    rfl
  rw [nextToken_eq_scan _ _ _ (by rw [hscan]; rfl), hscan]

theorem ctxNext_ws (c : Ctx) (h : ∀ x ∈ c.rest, cIsSpace x = true) :
    ctxNext c = ⟨c.dt, ⟨TokenType.kEOF, []⟩, [], c.errs⟩ := by
  unfold ctxNext
  rw [nextToken_ws c.dt c.tok c.rest h]
  simp

/-- At an end-of-stream token, the simplified root object closes at once. -/
theorem parse_object_root_eof (f : Nat) (c : Ctx)
    (h1 : c.dt = JsonDocumentType.kSimplified) (h2 : c.tok.type = TokenType.kEOF) :
    parse_object (f + 2) c true = (c, some (JsonValue.obj [])) := by
  rw [show f + 2 = (f + 1) + 1 from rfl, parse_object_succ]
  rw [if_neg (by rw [h1]; simp)]
  rw [parse_object_loop_succ]
  rw [if_pos (Or.inr ⟨rfl, h2⟩)]
  rw [if_neg (by rw [h1]; simp)]

/-! Whitespace-only documents. -/

theorem parse_json_ws (ws : List Char) (hint : JsonDocumentType)
    (hws : ∀ c ∈ ws, cIsSpace c = true)
    (hhint : hint = JsonDocumentType.kUnknown ∨ hint = JsonDocumentType.kSimplified) :
    parse_json ws hint =
      (⟨JsonDocumentType.kSimplified, ⟨TokenType.kEOF, []⟩, [], []⟩, some (JsonValue.obj [])) := by
  unfold parse_json parse_document_root
  have hC : ctxNext ⟨hint, initialToken, ws, []⟩ = ⟨hint, ⟨TokenType.kEOF, []⟩, [], []⟩ :=
    ctxNext_ws ⟨hint, initialToken, ws, []⟩ hws
  rw [hC]
  have hdec : decideDialect ⟨hint, ⟨TokenType.kEOF, []⟩, [], []⟩ =
      ⟨JsonDocumentType.kSimplified, ⟨TokenType.kEOF, []⟩, [], []⟩ := by
    rcases hhint with hh | hh <;> subst hh <;> rfl
  rw [hdec]
  rw [if_pos rfl]
  have hfuel : (ws.length + 2) * 4 = (ws.length * 4 + 6) + 2 := by ring
  rw [hfuel]
  exact parse_object_root_eof (ws.length * 4 + 6) _ rfl rfl

/-! The chunked source layer: whatever the source's read granularity, the
block chain delivers exactly the source's byte sequence. -/

theorem sourceRead_flatten (src : List (List Char)) (n : Nat) :
    (sourceRead src n).1 ++ (sourceRead src n).2.flatten = src.flatten := by
  cases src with
  | nil => rfl
  | cons h t =>
    simp only [sourceRead]
    split
    · rfl
    · simp only [List.flatten_cons]
      rw [← List.append_assoc, List.take_append_drop]

theorem sourceRead_srcLen (src : List (List Char)) (n : Nat) :
    srcLen (sourceRead src n).2 + (sourceRead src n).1.length = srcLen src := by
  cases src with
  | nil => rfl
  | cons h t =>
    simp only [sourceRead]
    split
    · simp [srcLen, Nat.add_comm]
    · rename_i hlen
      simp only [srcLen, List.map_cons, List.sum_cons, List.length_take, List.length_drop]
      omega

theorem sourceRead_nonempty (src : List (List Char)) (n : Nat)
    (hsrc : ∀ b ∈ src, b ≠ []) : ∀ b ∈ (sourceRead src n).2, b ≠ [] := by
  cases src with
  | nil => intro b hb; exact absurd hb (by simp [sourceRead])
  | cons h t =>
    simp only [sourceRead]
    split
    · intro b hb; exact hsrc b (by simp [hb])
    · rename_i hlen
      intro b hb
      rcases List.mem_cons.1 hb with h1 | h1
      · subst h1
        intro hd
        have : (h.drop n).length = h.length - n := List.length_drop ..
        rw [hd] at this
        simp at this
        omega
      · exact hsrc b (by simp [h1])

theorem sourceRead_exhausted (src : List (List Char)) (n : Nat)
    (hsrc : ∀ b ∈ src, b ≠ []) (hn : 1 ≤ n) :
    (sourceRead src n).1 = [] → src = [] := by
  cases src with
  | nil => intro _; rfl
  | cons h t =>
    simp only [sourceRead]
    split
    · intro he; exact absurd he (hsrc h (by simp))
    · rename_i hlen
      intro he
      simp only at he
      have : (h.take n).length = min n h.length := List.length_take ..
      rw [he] at this
      simp at this
      omega

theorem fillBlock_none_spec : ∀ (f : Nat) (src : List (List Char)) (acc : List Char)
    (src' : List (List Char)), (∀ b ∈ src, b ≠ []) → blockCap < acc.length + f →
    fillBlock f src acc = (none, src') → acc = [] ∧ src = [] ∧ src' = [] := by
  intro f
  induction f with
  | zero =>
    intro src acc src' _ _ heq
    cases heq
  | succ f ih =>
    intro src acc src' hsrc hf heq
    unfold fillBlock at heq
    split at heq
    · cases heq
    · rename_i hcap
      split at heq
      · rename_i hr
        split at heq
        · rename_i hacc
          have hsrcnil : src = [] :=
            sourceRead_exhausted src (blockCap - acc.length) hsrc
              (by unfold blockCap at hcap ⊢; omega) hr
          injection heq with h1 h2
          refine ⟨hacc, hsrcnil, ?_⟩
          subst hsrcnil
          rw [← h2]
          rfl
        · cases heq
      · rename_i hr
        have hrec := ih _ _ _ (sourceRead_nonempty src (blockCap - acc.length) hsrc)
          (by
            have h1 : 1 ≤ (sourceRead src (blockCap - acc.length)).1.length :=
              List.length_pos.2 hr
            simp only [List.length_append]
            omega) heq
        exact absurd (List.append_eq_nil.1 hrec.1).2 hr

theorem fillBlock_some_spec : ∀ (f : Nat) (src : List (List Char)) (acc : List Char)
    (b : List Char) (src' : List (List Char)),
    (∀ x ∈ src, x ≠ []) → blockCap < acc.length + f →
    fillBlock f src acc = (some b, src') →
    b ++ src'.flatten = acc ++ src.flatten ∧ (∀ x ∈ src', x ≠ []) ∧
    srcLen src' + b.length = srcLen src + acc.length ∧ acc.length ≤ b.length := by
  intro f
  induction f with
  | zero =>
    intro src acc b src' hsrc _ heq
    injection heq with h1 h2
    injection h1 with h1
    subst h1; subst h2
    exact ⟨rfl, hsrc, rfl, Nat.le_refl _⟩
  | succ f ih =>
    intro src acc b src' hsrc hf heq
    unfold fillBlock at heq
    split at heq
    · injection heq with h1 h2
      injection h1 with h1
      subst h1; subst h2
      exact ⟨rfl, hsrc, rfl, Nat.le_refl _⟩
    · rename_i hcap
      split at heq
      · rename_i hr
        split at heq
        · cases heq
        · rename_i hacc
          injection heq with h1 h2
          injection h1 with h1
          subst h1; subst h2
          have hflat := sourceRead_flatten src (blockCap - acc.length)
          rw [hr] at hflat
          have hlen := sourceRead_srcLen src (blockCap - acc.length)
          rw [hr] at hlen
          simp only [List.nil_append] at hflat
          simp only [List.length_nil, Nat.add_zero] at hlen
          exact ⟨by rw [hflat], sourceRead_nonempty src _ hsrc, by rw [hlen],
            Nat.le_refl _⟩
      · rename_i hr
        have hpos : 1 ≤ (sourceRead src (blockCap - acc.length)).1.length :=
          List.length_pos.2 hr
        have hrec := ih _ _ _ _ (sourceRead_nonempty src (blockCap - acc.length) hsrc)
          (by simp only [List.length_append]; omega) heq
        have hflat := sourceRead_flatten src (blockCap - acc.length)
        have hlen := sourceRead_srcLen src (blockCap - acc.length)
        obtain ⟨r1, r2, r3, r4⟩ := hrec
        refine ⟨?_, r2, ?_, ?_⟩
        · rw [r1, List.append_assoc, hflat]
        · simp only [List.length_append] at r3
          omega
        · simp only [List.length_append] at r4
          omega


theorem allocate_none_spec (src src' : List (List Char))
    (hsrc : ∀ b ∈ src, b ≠ []) (heq : allocate_next_block src = (none, src')) :
    src = [] ∧ src' = [] := by
  have h := fillBlock_none_spec (blockCap + 1) src [] src' hsrc (by simp) heq
  exact ⟨h.2.1, h.2.2⟩

theorem allocate_some_spec (src : List (List Char)) (b : List Char)
    (src' : List (List Char)) (hsrc : ∀ x ∈ src, x ≠ [])
    (heq : allocate_next_block src = (some b, src')) :
    b ++ src'.flatten = src.flatten ∧ (∀ x ∈ src', x ≠ []) ∧
    srcLen src' + b.length = srcLen src := by
  have h := fillBlock_some_spec (blockCap + 1) src [] b src' hsrc (by simp) heq
  refine ⟨by simpa using h.1, h.2.1, by simpa using h.2.2.1⟩

theorem allocate_some_pos (src : List (List Char)) (b : List Char)
    (src' : List (List Char)) (hsrc : ∀ x ∈ src, x ≠ []) (hne : src ≠ [])
    (heq : allocate_next_block src = (some b, src')) : 1 ≤ b.length := by
  unfold allocate_next_block fillBlock at heq
  split at heq
  · rename_i hcap
    exact absurd hcap (by simp [blockCap])
  · split at heq
    · rename_i hr
      exact absurd (sourceRead_exhausted src _ hsrc (by simp [blockCap]) hr) hne
    · rename_i hr
      have hpos : 1 ≤ (sourceRead src (blockCap - [].length)).1.length :=
        List.length_pos.2 hr
      have h := fillBlock_some_spec blockCap _ _ b src'
        (sourceRead_nonempty src _ hsrc)
        (by simp only [List.nil_append]; omega) heq
      have := h.2.2.2
      simp only [List.length_append] at this
      omega

theorem readBlocks_flatten : ∀ (n : Nat) (src : List (List Char)),
    (∀ b ∈ src, b ≠ []) → srcLen src < n →
    (readBlocks n src).flatten = src.flatten := by
  intro n
  induction n with
  | zero => intro src _ h; cases h
  | succ n ih =>
    intro src hsrc hlt
    unfold readBlocks
    split
    · rename_i heq
      rw [(allocate_none_spec src _ hsrc heq).1]
    · rename_i b src' heq
      by_cases hne : src = []
      · subst hne
        rw [show allocate_next_block [] =
          ((none : Option (List Char)), ([] : List (List Char))) from rfl] at heq
        cases heq
      · obtain ⟨h1, h2, h3⟩ := allocate_some_spec src b src' hsrc heq
        have hb := allocate_some_pos src b src' hsrc hne heq
        simp only [List.flatten_cons]
        rw [ih src' h2 (by omega), h1]

theorem sourceBytes_eq_flatten (src : List (List Char)) (hsrc : ∀ b ∈ src, b ≠ []) :
    sourceBytes src = src.flatten := by
  unfold sourceBytes
  exact readBlocks_flatten (srcLen src + 1) src hsrc (Nat.lt_succ_self _)


/-! ## Claim theorems -/

/-- C1: when the dialect hint is auto (`kUnknown`), `parse_document_root`
decides the dialect exactly once from the first token only — a first token
`{` or `[` always selects strict JSON and any other first token always
selects simplified (first conjunct: the dialect of the final context is that
pure function of the first token), and no grammar routine ever changes the
dialect afterwards (remaining conjuncts), so the decision is made exactly
once. -/
theorem C1_dialect_decided_once_from_first_token :
    (∀ input : List Char,
      (parse_json input JsonDocumentType.kUnknown).1.dt =
        (if (nextToken JsonDocumentType.kUnknown initialToken input).1.type =
              TokenType.kCurlyLeft ∨
            (nextToken JsonDocumentType.kUnknown initialToken input).1.type =
              TokenType.kBraceLeft
         then JsonDocumentType.kNormal else JsonDocumentType.kSimplified)) ∧
    (∀ (f : Nat) (c : Ctx), (parse_value f c).1.dt = c.dt) ∧
    (∀ (f : Nat) (c : Ctx), (parse_array f c).1.dt = c.dt) ∧
    (∀ (f : Nat) (c : Ctx) (root : Bool), (parse_object f c root).1.dt = c.dt) := by
  refine ⟨?_, fun f c => (parsers_dt f).1 c, fun f c => (parsers_dt f).2.1 c,
    fun f c root => (parsers_dt f).2.2.2.1 c root⟩
  intro input
  unfold parse_json
  exact parse_document_root_dt _ _ rfl

/-- C2: duplicate object keys — the first occurrence wins.  A later insert
of a key already present is a silent no-op on the member map (first
conjunct, `JsonObject::insert` over `std::map`), and parsing `{"a":1,"a":2}`
succeeds with no reported error, yielding an object in which `a` maps to
the number `1` (remaining conjuncts). -/
theorem C2_duplicate_key_first_wins :
    (∀ (m : List (List Char × JsonValue)) (k : List Char) (v0 v : JsonValue),
      keysSorted m = true → mapFind m k = some v0 → mapInsert m k v = m) ∧
    (parse_json inputDupKey JsonDocumentType.kUnknown).2 =
      some (JsonValue.obj [(['a'], JsonValue.num ['1'])]) ∧
    (parse_json inputDupKey JsonDocumentType.kUnknown).1.errs = [] :=
  ⟨fun m k v0 v hs hf => mapInsert_no_op m k v0 v hs hf, rfl, rfl⟩

/-- C2 witness: inserting `a ↦ 2` into the singleton map `a ↦ 1` leaves the
map unchanged. -/
theorem C2_duplicate_key_witness :
    mapInsert [(['a'], JsonValue.num ['1'])] ['a'] (JsonValue.num ['2']) =
      [(['a'], JsonValue.num ['1'])] :=
  C2_duplicate_key_first_wins.1 [(['a'], JsonValue.num ['1'])] ['a']
    (JsonValue.num ['1']) (JsonValue.num ['2']) rfl rfl

/-- C3 (code evaluated at the failing input): the lexeme `-1.5` is NOT
classified as a number token — the leading sign makes `next()` call
`select_number(true)`, pre-setting the had-a-decimal-point flag, so the `.`
triggers the identifier fallback; consequently the well-formed strict
document `[-1.5]` fails to parse under both the auto and the strict hint. -/
theorem C3_signed_decimal_rejected :
    (nextToken JsonDocumentType.kUnknown initialToken inputSignedDecimal).1.type =
      TokenType.kIdentifier ∧
    (nextToken JsonDocumentType.kUnknown initialToken inputSignedDecimal).1.lexeme =
      ['-', '1', '.', '5'] ∧
    (parse_json inputSignedDecimalDoc JsonDocumentType.kUnknown).2 = none ∧
    (parse_json inputSignedDecimalDoc JsonDocumentType.kNormal).2 = none :=
  ⟨rfl, rfl, rfl, rfl⟩

/-- C4 counterexample: in the string token scanned from the bytes of a
quoted `a`-backslash-quote-`b`, the backslash does NOT protect the interior
quote — the scan stops at the first `"` byte, so the token's text is the
two bytes `a` backslash, not the four bytes the claim predicts. -/
theorem C4_escaped_quote_terminates_ctrex :
    (nextToken JsonDocumentType.kUnknown initialToken inputEscapedQuote).1 =
      { type := TokenType.kString, lexeme := ['a', '\\'] } ∧
    ¬ (nextToken JsonDocumentType.kUnknown initialToken inputEscapedQuote).1.lexeme =
      ['a', '\\', '"', 'b'] :=
  ⟨rfl, by decide⟩

/-- C4 amended: when the tokenizer meets `"`, the string token's span covers
only the interior bytes up to the FIRST closing `"` (both quotes excluded),
the interior is taken verbatim with no escape decoding — a backslash has no
special meaning, so a quote preceded by a backslash terminates the token —
and a string still open with at least one interior byte when the stream
ends keeps its raw interior and reports unexpected end-of-stream. -/
theorem C4_string_scan_amended (dt : JsonDocumentType) (prev : Token)
    (s rest : List Char) (h : '"' ∉ s) :
    nextToken dt prev ('"' :: (s ++ '"' :: rest)) =
      ({ type := TokenType.kString, lexeme := s }, rest, []) ∧
    (s ≠ [] → nextToken dt prev ('"' :: s) =
      ({ type := TokenType.kString, lexeme := s }, [], [Diag.unexpectedEof])) := by
  constructor
  · exact nextToken_string dt prev s rest h
  · intro hne
    have hscan : scanToken dt prev ('"' :: s) =
        ({ type := TokenType.kString, lexeme := s }, [], [Diag.unexpectedEof]) :=
      (show scanToken dt prev ('"' :: s) = select_string prev s from rfl).trans
        (select_string_unterminated prev s hne h)
    rw [nextToken_eq_scan _ _ _ (by rw [hscan]; rfl), hscan]

/-- C4 witness: the token scanned from a quoted `hi` is the string `hi` with
the quotes excluded and no diagnostic. -/
theorem C4_string_scan_witness :
    nextToken JsonDocumentType.kUnknown initialToken
        ('"' :: (['h', 'i'] ++ '"' :: [' '])) =
      ({ type := TokenType.kString, lexeme := ['h', 'i'] }, [' '], []) :=
  (C4_string_scan_amended JsonDocumentType.kUnknown initialToken ['h', 'i'] [' ']
    (by decide)).1

/-- C5 (code evaluated at the failing input): parsing `a:"xyz` reports
`unexpected_eof` for the unterminated string, yet `parse_json` returns
SUCCESS with a complete tree — `ParseContext::next` discards
`select_string`'s failure return, so the reported error does not abort the
parse, contradicting the claimed propagation policy. -/
theorem C5_error_reported_yet_parse_succeeds :
    (parse_json inputUnterminated JsonDocumentType.kUnknown).1.errs =
      [Diag.unexpectedEof] ∧
    (parse_json inputUnterminated JsonDocumentType.kUnknown).2 =
      some (JsonValue.obj [(['a'], JsonValue.str ['x', 'y', 'z'])]) :=
  ⟨rfl, rfl⟩

/-- C6: parsing the truncated document `{"a":` returns failure under both
the auto and the strict hint; the result's value component models the
caller's out-parameter, `none` meaning it was never assigned — the C++
writes `document` only immediately before a top-level `return true`, so no
partial tree reaches the caller. -/
theorem C6_truncated_object_fails_no_tree :
    (parse_json inputTruncated JsonDocumentType.kUnknown).2 = none ∧
    (parse_json inputTruncated JsonDocumentType.kNormal).2 = none :=
  ⟨rfl, rfl⟩

/-- C7: chunk-boundary independence — two byte sources that deliver the same
byte sequence under different read granularities (every delivery nonempty;
a zero-byte read means exhaustion) drive `parse_json` to identical results:
same success/failure outcome, identical tree, identical diagnostics. -/
theorem C7_chunking_independence (hint : JsonDocumentType)
    (s1 s2 : List (List Char)) (h1 : ∀ b ∈ s1, b ≠ []) (h2 : ∀ b ∈ s2, b ≠ [])
    (h : s1.flatten = s2.flatten) :
    parse_json_from_source s1 hint = parse_json_from_source s2 hint := by
  unfold parse_json_from_source
  rw [sourceBytes_eq_flatten s1 h1, sourceBytes_eq_flatten s2 h2, h]

/-- C7 witness: the document `a:1` delivered in one read equals the same
document delivered one byte per read. -/
theorem C7_chunking_witness :
    parse_json_from_source [['a', ':', '1']] JsonDocumentType.kUnknown =
      parse_json_from_source [['a'], [':'], ['1']] JsonDocumentType.kUnknown :=
  C7_chunking_independence JsonDocumentType.kUnknown [['a', ':', '1']]
    [['a'], [':'], ['1']] (by decide) (by decide) (by decide)

/-- C8: under the strict dialect, after each array element the next token
must be a comma or `]`, otherwise the element loop fails at once with an
unexpected-token report (first conjunct, for every context and element);
concretely `[1 2]` fails with exactly that diagnostic, while under the
simplified dialect the comma is optional and elements append in source
order until `]` (`a:[1 2]` yields the array `[1, 2]`). -/
theorem C8_strict_array_comma_rule :
    (∀ (f : Nat) (c : Ctx) (acc : List JsonValue) (v : JsonValue),
      c.dt = JsonDocumentType.kNormal →
      c.tok.type ≠ TokenType.kBraceRight →
      (parse_value f c).2 = some v →
      (parse_value f c).1.tok.type ≠ TokenType.kComma →
      (parse_value f c).1.tok.type ≠ TokenType.kBraceRight →
      parse_array_loop (f + 1) c acc =
        (pushErr (parse_value f c).1
          (Diag.unexpectedToken (parse_value f c).1.tok.type), none)) ∧
    (parse_json inputMissingComma JsonDocumentType.kUnknown).2 = none ∧
    (parse_json inputMissingComma JsonDocumentType.kUnknown).1.errs =
      [Diag.unexpectedToken TokenType.kNumber] ∧
    (parse_json inputSimplifiedArray JsonDocumentType.kUnknown).2 =
      some (JsonValue.obj [(['a'],
        JsonValue.arr [JsonValue.num ['1'], JsonValue.num ['2']])]) := by
  refine ⟨?_, rfl, rfl, rfl⟩
  intro f c acc v hdt hbr hval hcomma hbrace
  rw [parse_array_loop_succ, if_neg hbr]
  unfold arrayElementStep
  split
  · rename_i heq
    rw [show ((parsers f).value c).2 = (parse_value f c).2 from rfl, hval] at heq
    cases heq
  · rename_i w heq
    rw [if_pos ⟨(parsers_dt f).1 c ▸ hdt, hcomma, hbrace⟩]
    rfl

/-- C8 witness: on the strict context sitting at element `1` of `[1 2]`, the
element loop fails with the unexpected-token report. -/
theorem C8_strict_array_comma_witness :
    parse_array_loop 2 c8Ctx [] =
      (pushErr (parse_value 1 c8Ctx).1
        (Diag.unexpectedToken (parse_value 1 c8Ctx).1.tok.type), none) :=
  C8_strict_array_comma_rule.1 1 c8Ctx [] (JsonValue.num ['1']) rfl (by decide)
    rfl (by decide) (by decide)

/-- C9: an input of zero bytes or of whitespace only, under the auto or the
simplified hint, parses successfully (no diagnostics) to a root value that
is an empty object. -/
theorem C9_blank_input_empty_object (ws : List Char) (hint : JsonDocumentType)
    (hws : ∀ c ∈ ws, cIsSpace c = true)
    (hhint : hint = JsonDocumentType.kUnknown ∨ hint = JsonDocumentType.kSimplified) :
    (parse_json ws hint).2 = some (JsonValue.obj []) ∧
    (parse_json ws hint).1.errs = [] := by
  rw [parse_json_ws ws hint hws hhint]
  exact ⟨rfl, rfl⟩

/-- C9 witness: a space and a newline parse to the empty object. -/
theorem C9_blank_input_witness :
    (parse_json [' ', '\n'] JsonDocumentType.kUnknown).2 =
      some (JsonValue.obj []) ∧
    (parse_json [' ', '\n'] JsonDocumentType.kUnknown).1.errs = [] :=
  C9_blank_input_empty_object [' ', '\n'] JsonDocumentType.kUnknown (by decide)
    (Or.inl rfl)

/-- C10 counterexample: number scanning is NOT the only lexeme class that
accepts end-of-stream.  A line comment the stream ends inside is consumed
with no diagnostic — `a:1` followed by an unterminated comment parses
successfully with an empty report list — and a string token whose opening
quote is the very last byte also reports nothing (the early `return false`
in `select_string` precedes the `unexpected_eof` call). -/
theorem C10_eof_lexeme_ctrex :
    (parse_json inputCommentAtEof JsonDocumentType.kUnknown).1.errs = [] ∧
    (parse_json inputCommentAtEof JsonDocumentType.kUnknown).2 =
      some (JsonValue.obj [(['a'], JsonValue.num ['1'])]) ∧
    select_string initialToken [] =
      ({ type := TokenType.kString, lexeme := [] }, [], []) :=
  ⟨rfl, rfl, rfl⟩

/-- C10 amended: number scanning AND line-comment scanning accept
end-of-stream as a terminator without any diagnostic (conjuncts 1–3, also
at whole-document level in the last two conjuncts); an identifier still
open at end-of-stream reports unexpected end-of-stream (conjunct 4); a
string reports unexpected end-of-stream when at least one byte follows the
opening quote (conjunct 5), while a quote immediately followed by
end-of-stream yields a string token with no diagnostic (conjunct 6). -/
theorem C10_eof_lexeme_amended :
    (∀ (dt : JsonDocumentType) (hD hE hS : Bool) (acc : List Char),
      select_number dt hD hE hS acc [] =
        ({ type := TokenType.kNumber, lexeme := acc.reverse }, [], [])) ∧
    (∀ (dt : JsonDocumentType) (prev : Token) (d : Char) (ds : List Char),
      cIsDigit d = true → (∀ c ∈ ds, cIsDigit c = true) →
      nextToken dt prev (d :: ds) =
        ({ type := TokenType.kNumber, lexeme := d :: ds }, [], [])) ∧
    (∀ (dt : JsonDocumentType) (prev : Token) (cs : List Char), '\n' ∉ cs →
      nextToken dt prev ('-' :: '-' :: cs) =
        ({ type := TokenType.kEOF, lexeme := [] }, [], [])) ∧
    (∀ (dt : JsonDocumentType) (acc : List Char) (i : Nat) (fT fF fN : Bool),
      select_identifier dt acc i fT fF fN [] =
        ({ type := TokenType.kIdentifier, lexeme := acc.reverse }, [],
          [Diag.unexpectedEof])) ∧
    (∀ (prev : Token) (s : List Char), s ≠ [] → '"' ∉ s →
      select_string prev s =
        ({ type := TokenType.kString, lexeme := s }, [], [Diag.unexpectedEof])) ∧
    (∀ prev : Token, select_string prev [] =
        ({ type := TokenType.kString, lexeme := prev.lexeme }, [], [])) ∧
    (parse_json inputTrailingNumber JsonDocumentType.kUnknown).2 =
      some (JsonValue.obj [(['a'], JsonValue.num ['1'])]) ∧
    (parse_json inputTrailingNumber JsonDocumentType.kUnknown).1.errs = [] := by
  refine ⟨fun dt hD hE hS acc => rfl, ?_, ?_,
    fun dt acc i fT fF fN => rfl, ?_, fun prev => rfl, rfl, rfl⟩
  · exact fun dt prev d ds hd h => nextToken_digits dt prev d ds hd h
  · exact fun dt prev cs h => nextToken_comment_eof dt prev cs h
  · exact fun prev s hne h => select_string_unterminated prev s hne h

/-- C10 witness: the digit `7` at end-of-stream is a clean number token, the
comment bytes of an unterminated comment scan to a clean end-of-stream
token, and an unterminated `ab` string reports unexpected end-of-stream. -/
theorem C10_eof_lexeme_witness :
    nextToken JsonDocumentType.kUnknown initialToken ['7'] =
      ({ type := TokenType.kNumber, lexeme := ['7'] }, [], []) ∧
    nextToken JsonDocumentType.kUnknown initialToken ['-', '-', 'c'] =
      ({ type := TokenType.kEOF, lexeme := [] }, [], []) ∧
    select_string initialToken ['a', 'b'] =
      ({ type := TokenType.kString, lexeme := ['a', 'b'] }, [], [Diag.unexpectedEof]) :=
  ⟨C10_eof_lexeme_amended.2.1 JsonDocumentType.kUnknown initialToken '7' [] rfl
      (by decide),
   C10_eof_lexeme_amended.2.2.1 JsonDocumentType.kUnknown initialToken ['c'] (by decide),
   C10_eof_lexeme_amended.2.2.2.2.1 initialToken ['a', 'b'] (by decide) (by decide)⟩

end Knowson
